import Mathlib

/-!
Shallow embedding of the task-manager-app backend
(`backend/app/routes.py`, `backend/app/db.py`, `backend/app/main.py`).

The backend is a CRUD service over a single `Task` entity stored in a
relational table. We embed the persisted store as a list of rows together
with the storage id counter, and each HTTP handler from `routes.py` as a
pure function from the store to a result (`Except`) paired with the store
after the call. The SQLAlchemy session's commit-or-rollback unit is
embedded separately (`DBSession`, the `*_tx` handlers) with an explicit
point at which an exception may be raised inside the unit.

`backend/app/models.py` (the SQLAlchemy `Task` model and the pydantic
shapes `TaskCreate` / `TaskUpdate`) is imported by `routes.py` but is not
part of the sources available here; those shapes are modelled from the
specification (sections 3, 4.4, 4.5) and are marked `Modelled from the
spec:` in their doc comments.
-/

namespace TaskApp

/-- A persisted Task row.
Modelled from the spec: `app/models.py` (the SQLAlchemy `Task` model) is
not among the available sources. Spec section 3: id integer assigned by
storage, title text, description optional text, completed boolean. -/
structure Task where
  id : Nat
  title : String
  description : Option String
  completed : Bool
deriving Repr, DecidableEq

/-- The persisted database state: the rows of the single Task table plus
the storage-side id counter (spec section 3: "id ... assigned by storage
on creation"; SQLite assigns increasing integer primary keys). -/
structure DBState where
  tasks : List Task
  nextId : Nat
deriving Repr, DecidableEq

/-- The state right after `init_db` in `db.py` created the empty table. -/
def initDB : DBState := { tasks := [], nextId := 1 }

/-- A raw create request body: each field may be absent. -/
structure CreateRequest where
  title : Option String
  description : Option String
  completed : Option Bool
deriving Repr, DecidableEq

/-- A validated create payload.
Modelled from the spec: `app/models.py` (`TaskCreate`) is not among the
available sources. Spec section 4.4: "title (required, rejected if
empty/missing), description (optional), completed (optional, defaults
false)". -/
structure TaskCreate where
  title : String
  description : Option String
  completed : Bool
deriving Repr, DecidableEq

/-- Validation of a create request, performed before the handler body
runs (pydantic validates the body before `create_task` is entered).
Modelled from the spec: section 4.4 "rejected if empty/missing" and
section 7 "validation error — malformed create/update payload, surfaced
as a client error before any storage access". -/
def validateCreate (r : CreateRequest) : Option TaskCreate :=
  match r.title with
  | none => none
  | some t =>
    if t = "" then none
    else some { title := t, description := r.description, completed := r.completed.getD false }

/-- An update request body after `task_update.dict(exclude_unset=True)`:
`none` means the field was absent from the request.
Modelled from the spec: `app/models.py` (`TaskUpdate`) is not among the
available sources. Spec section 4.5: "an id, plus zero or more of
{title, description, completed}". -/
structure TaskUpdate where
  title : Option String
  description : Option String
  completed : Option Bool
deriving Repr, DecidableEq

/-- Validation of an update payload.
Modelled from the spec: section 3 makes title "required, non-empty" and
section 7 classifies a malformed update payload as a validation error
rejected before storage access; an update that supplies an empty title is
therefore rejected, keeping the section 3 invariant ("every persisted
Task has ... a non-empty title"). -/
def validateUpdate (u : TaskUpdate) : Bool :=
  match u.title with
  | none => true
  | some t => t != ""

/-- The row built by `TaskModel(title=..., description=..., completed=...)`
once storage has assigned it the id `n`. -/
def taskOfCreate (tc : TaskCreate) (n : Nat) : Task :=
  { id := n, title := tc.title, description := tc.description, completed := tc.completed }

/-- Error outcomes of a handler, as in `routes.py`: 404 not-found,
validation rejection, 500 storage failure. -/
inductive Err where
  | notFound
  | validation
  | storage
deriving Repr, DecidableEq

/-- The `setattr` loop of `update_task` (routes.py lines 175-177): each
field present in the exclude_unset dict is assigned onto the row, absent
fields are left untouched; `id` is never part of the dict. -/
def applyUpdate (u : TaskUpdate) (t : Task) : Task :=
  { t with
    title := u.title.getD t.title
    description := match u.description with | some d => some d | none => t.description
    completed := u.completed.getD t.completed }

/-- `GET /tasks` (`get_tasks`, routes.py lines 28-50): returns every row;
the session is only read. -/
def get_tasks (db : DBState) : Except Err (List Task) × DBState :=
  (Except.ok db.tasks, db)

/-- `GET /tasks/{task_id}` (`get_task`, routes.py lines 53-88):
`query(...).filter(TaskModel.id == task_id).first()`; 404 when no row
matches. The session is only read. -/
def get_task (task_id : Nat) (db : DBState) : Except Err Task × DBState :=
  match db.tasks.find? (fun t => t.id == task_id) with
  | some t => (Except.ok t, db)
  | none => (Except.error Err.notFound, db)

/-- `POST /tasks` (`create_task`, routes.py lines 96-133): the body is
validated before the handler runs; on success a row is inserted with the
storage-assigned id and committed. -/
def create_task (r : CreateRequest) (db : DBState) : Except Err Task × DBState :=
  match validateCreate r with
  | none => (Except.error Err.validation, db)
  | some tc =>
    let nt : Task := taskOfCreate tc db.nextId
    (Except.ok nt, { tasks := db.tasks ++ [nt], nextId := db.nextId + 1 })

/-- `PUT /tasks/{task_id}` (`update_task`, routes.py lines 141-192): the
body is validated first, the row is looked up (404 when absent), the
fields present in the exclude_unset dict are assigned, and the row is
committed. -/
def update_task (task_id : Nat) (u : TaskUpdate) (db : DBState) :
    Except Err Task × DBState :=
  if validateUpdate u then
    match db.tasks.find? (fun t => t.id == task_id) with
    | none => (Except.error Err.notFound, db)
    | some t =>
      let t' := applyUpdate u t
      (Except.ok t',
        { db with tasks := db.tasks.map (fun x => if x.id == task_id then t' else x) })
  else (Except.error Err.validation, db)

/-- `DELETE /tasks/{task_id}` (`delete_task`, routes.py lines 200-239):
the row is looked up (404 when absent), then deleted and committed. -/
def delete_task (task_id : Nat) (db : DBState) : Except Err Unit × DBState :=
  match db.tasks.find? (fun t => t.id == task_id) with
  | none => (Except.error Err.notFound, db)
  | some _ =>
    (Except.ok (), { db with tasks := db.tasks.filter (fun x => x.id != task_id) })

/-- Lookup of the persisted row with a given id (what a subsequent
`GET /tasks/{i}` observes). -/
def lookupTask (db : DBState) (i : Nat) : Option Task :=
  db.tasks.find? (fun t => t.id == i)

/-- A SQLAlchemy session over the store (`db.py`: `sessionmaker` with
`autocommit=False`): the committed state plus the session's pending view.
Pending changes become visible to other requests only at `commit()`;
`rollback()` discards them. -/
structure DBSession where
  persisted : DBState
  pending : DBState
deriving Repr, DecidableEq

/-- `get_db` hands the handler a fresh session over the current store. -/
def DBSession.begin (db : DBState) : DBSession := ⟨db, db⟩

/-- `db.commit()`: the pending changes become the committed state. -/
def DBSession.commit (s : DBSession) : DBSession := ⟨s.pending, s.pending⟩

/-- `db.rollback()`: the pending changes are discarded. -/
def DBSession.rollback (s : DBSession) : DBSession := ⟨s.persisted, s.persisted⟩

/-- `create_task` with its commit-or-rollback unit explicit (routes.py
lines 116-133): `raises` says whether an exception is raised inside the
`try` block before the commit takes effect; the `except` branch calls
`db.rollback()` and returns the 500 error. -/
def create_task_tx (r : CreateRequest) (db : DBState) (raises : Bool) :
    Except Err Task × DBState :=
  match validateCreate r with
  | none => (Except.error Err.validation, db)
  | some tc =>
    let s := DBSession.begin db
    let nt : Task := taskOfCreate tc s.pending.nextId
    let s' : DBSession :=
      { s with pending := { tasks := s.pending.tasks ++ [nt], nextId := s.pending.nextId + 1 } }
    if raises then ((Except.error Err.storage), (s'.rollback).persisted)
    else (Except.ok nt, (s'.commit).persisted)

/-- `update_task` with its commit-or-rollback unit explicit (routes.py
lines 166-192). -/
def update_task_tx (task_id : Nat) (u : TaskUpdate) (db : DBState) (raises : Bool) :
    Except Err Task × DBState :=
  if validateUpdate u then
    match db.tasks.find? (fun t => t.id == task_id) with
    | none => (Except.error Err.notFound, db)
    | some t =>
      let s := DBSession.begin db
      let t' := applyUpdate u t
      let s' : DBSession :=
        { s with pending :=
          { s.pending with
            tasks := s.pending.tasks.map (fun x => if x.id == task_id then t' else x) } }
      if raises then ((Except.error Err.storage), (s'.rollback).persisted)
      else (Except.ok t', (s'.commit).persisted)
  else (Except.error Err.validation, db)

/-- `delete_task` with its commit-or-rollback unit explicit (routes.py
lines 219-239). -/
def delete_task_tx (task_id : Nat) (db : DBState) (raises : Bool) :
    Except Err Unit × DBState :=
  match db.tasks.find? (fun t => t.id == task_id) with
  | none => (Except.error Err.notFound, db)
  | some _ =>
    let s := DBSession.begin db
    let s' : DBSession :=
      { s with pending :=
        { s.pending with tasks := s.pending.tasks.filter (fun x => x.id != task_id) } }
    if raises then ((Except.error Err.storage), (s'.rollback).persisted)
    else (Except.ok (), (s'.commit).persisted)

/-- One mutating API call, for reasoning about call sequences. -/
inductive Op where
  | create (r : CreateRequest)
  | update (task_id : Nat) (u : TaskUpdate)
  | delete (task_id : Nat)
deriving Repr, DecidableEq

/-- The persisted state after one mutating call. -/
def applyOp (db : DBState) : Op → DBState
  | Op.create r => (create_task r db).2
  | Op.update i u => (update_task i u db).2
  | Op.delete i => (delete_task i db).2

/-- The persisted state after a sequence of mutating calls. -/
def applyOps (ops : List Op) (db : DBState) : DBState :=
  ops.foldl applyOp db

/-- The spec section 3 invariant on the persisted store: ids pairwise
distinct, titles non-empty, and every id below the storage counter. -/
def Inv (db : DBState) : Prop :=
  db.tasks.Pairwise (fun a b => a.id ≠ b.id) ∧
  (∀ t ∈ db.tasks, t.title ≠ "") ∧
  (∀ t ∈ db.tasks, t.id < db.nextId)

instance (db : DBState) : Decidable (Inv db) := by
  unfold Inv; infer_instance

/-- Abstract view of the store: the partial map from ids to rows that the
API exposes (`GET /tasks/{i}`). -/
def absView (db : DBState) : Nat → Option Task :=
  fun i => db.tasks.find? (fun t => t.id == i)

/-- Specification-level state, following the spec's words: a partial map
from assigned ids to task records, plus the id the storage will assign
next. Used to state that listing returns exactly the non-deleted created
tasks with their last-written fields. -/
structure SpecState where
  m : Nat → Option Task
  next : Nat

/-- The spec-level state before any call: no task persisted. -/
def initSpec : SpecState := { m := fun _ => none, next := 1 }

/-- One mutating call at the specification level, following the spec's
words (sections 4.4-4.6): create inserts one record under a fresh
storage-assigned id; update rewrites exactly the addressed record,
merging only the supplied fields; delete removes exactly the addressed
record; a call that fails validation or addresses a missing id changes
nothing. -/
def specStep (s : SpecState) : Op → SpecState
  | Op.create r =>
    match validateCreate r with
    | none => s
    | some tc =>
      let nt : Task := taskOfCreate tc s.next
      { m := fun i => if i = s.next then some nt else s.m i, next := s.next + 1 }
  | Op.update i u =>
    if validateUpdate u then
      match s.m i with
      | none => s
      | some t => { s with m := fun j => if j = i then some (applyUpdate u t) else s.m j }
    else s
  | Op.delete i =>
    match s.m i with
    | none => s
    | some _ => { s with m := fun j => if j = i then none else s.m j }

/-- The spec-level state after a sequence of mutating calls. -/
def specSteps (ops : List Op) (s : SpecState) : SpecState :=
  ops.foldl specStep s

/-- Simulation between the implementation store and the spec-level
state: same lookup map and same next id, with the store well-formed. -/
def Sim (db : DBState) (s : SpecState) : Prop :=
  Inv db ∧ (∀ i, absView db i = s.m i) ∧ db.nextId = s.next

/-- A sample store for concrete witnesses. -/
def exampleTask : Task :=
  { id := 1, title := "Buy milk", description := none, completed := false }

/-- A sample store with one row, as after the spec section 8 POST. -/
def exampleDB : DBState := { tasks := [exampleTask], nextId := 2 }

/- ## List helper lemmas -/

theorem find?_map_replace (l : List Task) (i : Nat) (t' : Task) (h : t'.id = i)
    (j : Nat) (hj : j ≠ i) :
    (l.map (fun x => if x.id == i then t' else x)).find? (fun x => x.id == j) =
      l.find? (fun x => x.id == j) := by
  induction l with
  | nil => rfl
  | cons a l ih =>
    rw [List.map_cons]
    by_cases ha : a.id = i
    · have hfa : (if (a.id == i) = true then t' else a) = t' := by simp [ha]
      rw [hfa, List.find?_cons_of_neg, List.find?_cons_of_neg]
      · exact ih
      · simp [ha]; exact fun hh => hj hh.symm
      · simp [h]; exact fun hh => hj hh.symm
    · have hfa : (if (a.id == i) = true then t' else a) = a := by simp [ha]
      rw [hfa]
      by_cases haj : a.id = j
      · rw [List.find?_cons_of_pos, List.find?_cons_of_pos] <;> simp [haj]
      · rw [List.find?_cons_of_neg, List.find?_cons_of_neg]
        · exact ih
        · simp [haj]
        · simp [haj]

theorem find?_map_replace_self (l : List Task) (i : Nat) (t' : Task) (h : t'.id = i)
    (hsome : (l.find? (fun x => x.id == i)).isSome) :
    (l.map (fun x => if x.id == i then t' else x)).find? (fun x => x.id == i) =
      some t' := by
  induction l with
  | nil => simp [List.find?] at hsome
  | cons a l ih =>
    rw [List.map_cons]
    by_cases ha : a.id = i
    · have hfa : (if (a.id == i) = true then t' else a) = t' := by simp [ha]
      rw [hfa, List.find?_cons_of_pos]
      simp [h]
    · have hfa : (if (a.id == i) = true then t' else a) = a := by simp [ha]
      rw [List.find?_cons_of_neg _ (by simp [ha])] at hsome
      rw [hfa, List.find?_cons_of_neg _ (by simp [ha])]
      exact ih hsome

theorem find?_filter_ne (l : List Task) (i j : Nat) (hj : j ≠ i) :
    (l.filter (fun x => x.id != i)).find? (fun x => x.id == j) =
      l.find? (fun x => x.id == j) := by
  induction l with
  | nil => rfl
  | cons a l ih =>
    by_cases ha : a.id = i
    · rw [List.filter_cons_of_neg (by simp [ha]),
        List.find?_cons_of_neg _ (by simp [ha]; exact fun hh => hj hh.symm)]
      exact ih
    · rw [List.filter_cons_of_pos (by simp [ha])]
      by_cases haj : a.id = j
      · rw [List.find?_cons_of_pos _ (by simp [haj]),
          List.find?_cons_of_pos _ (by simp [haj])]
      · rw [List.find?_cons_of_neg _ (by simp [haj]),
          List.find?_cons_of_neg _ (by simp [haj])]
        exact ih

theorem find?_filter_self (l : List Task) (i : Nat) :
    (l.filter (fun x => x.id != i)).find? (fun x => x.id == i) = none := by
  induction l with
  | nil => rfl
  | cons a l ih =>
    by_cases ha : a.id = i
    · rw [List.filter_cons_of_neg (by simp [ha])]
      exact ih
    · rw [List.filter_cons_of_pos (by simp [ha]),
        List.find?_cons_of_neg _ (by simp [ha])]
      exact ih

theorem find?_append_tasks (l₁ l₂ : List Task) (p : Task → Bool) :
    (l₁ ++ l₂).find? p = ((l₁.find? p).orElse fun _ => l₂.find? p) := by
  induction l₁ with
  | nil => rfl
  | cons a l ih =>
    cases hpa : p a with
    | true => simp [List.find?_cons, hpa]
    | false => simp only [List.cons_append, List.find?_cons, hpa]; exact ih

theorem find?_eq_some_of_mem_unique (l : List Task)
    (hu : l.Pairwise (fun a b => a.id ≠ b.id)) (t : Task) (ht : t ∈ l) :
    l.find? (fun x => x.id == t.id) = some t := by
  induction l with
  | nil => cases ht
  | cons a l ih =>
    rcases List.mem_cons.mp ht with rfl | hmem
    · simp [List.find?_cons]
    · have hne : a.id ≠ t.id := (List.pairwise_cons.mp hu).1 t hmem
      have h2 : (a.id == t.id) = false := by simp [hne]
      simp only [List.find?_cons, h2]
      exact ih (List.pairwise_cons.mp hu).2 hmem

theorem validateCreate_title (r : CreateRequest) (tc : TaskCreate)
    (h : validateCreate r = some tc) : tc.title ≠ "" := by
  rcases hr : r.title with _ | t
  · simp [validateCreate, hr] at h
  · by_cases ht : t = ""
    · simp [validateCreate, hr, ht] at h
    · simp only [validateCreate, hr, if_neg ht, Option.some.injEq] at h
      rw [← h]
      exact ht

theorem applyUpdate_id (u : TaskUpdate) (t : Task) : (applyUpdate u t).id = t.id := rfl

theorem applyUpdate_title_ne (u : TaskUpdate) (t : Task)
    (hv : validateUpdate u = true) (ht : t.title ≠ "") :
    (applyUpdate u t).title ≠ "" := by
  rcases hu : u.title with _ | s
  · simpa [applyUpdate, hu] using ht
  · have hs : s ≠ "" := by
      have := hv
      rw [validateUpdate, hu] at this
      simpa using this
    simpa [applyUpdate, hu] using hs

theorem replace_id_eq (i : Nat) (t' : Task) (h : t'.id = i) (x : Task) :
    (if x.id == i then t' else x).id = x.id := by
  by_cases hx : x.id = i
  · simp [hx, h]
  · simp [hx]

theorem find?_id_eq (l : List Task) (i : Nat) (t : Task)
    (h : l.find? (fun x => x.id == i) = some t) : t.id = i := by
  have := List.find?_some h
  simpa using this

/- ## Invariant preservation -/

theorem inv_create (r : CreateRequest) (db : DBState) (h : Inv db) :
    Inv (create_task r db).2 := by
  obtain ⟨hpw, htl, hid⟩ := h
  rcases hv : validateCreate r with _ | tc
  · simp only [create_task, hv]
    exact ⟨hpw, htl, hid⟩
  · simp only [create_task, hv]
    refine ⟨?_, ?_, ?_⟩
    · rw [List.pairwise_append]
      refine ⟨hpw, List.pairwise_singleton _ _, ?_⟩
      intro a ha b hb
      have hb' : b = taskOfCreate tc db.nextId := by simpa using hb
      rw [hb']
      exact Nat.ne_of_lt (hid a ha)
    · intro t ht
      rcases List.mem_append.mp ht with hmem | hmem
      · exact htl t hmem
      · have ht' : t = taskOfCreate tc db.nextId := by simpa using hmem
        rw [ht']
        exact validateCreate_title r tc hv
    · intro t ht
      rcases List.mem_append.mp ht with hmem | hmem
      · exact Nat.lt_succ_of_lt (hid t hmem)
      · have ht' : t = taskOfCreate tc db.nextId := by simpa using hmem
        rw [ht']
        exact Nat.lt_succ_self _

theorem inv_update (i : Nat) (u : TaskUpdate) (db : DBState) (h : Inv db) :
    Inv (update_task i u db).2 := by
  obtain ⟨hpw, htl, hid⟩ := h
  by_cases hv : validateUpdate u = true
  · rcases hf : db.tasks.find? (fun t => t.id == i) with _ | t
    · simp only [update_task, hv, if_true, hf]
      exact ⟨hpw, htl, hid⟩
    · simp only [update_task, hv, if_true, hf]
      have hti : t.id = i := find?_id_eq db.tasks i t hf
      have htmem : t ∈ db.tasks := List.mem_of_find?_eq_some hf
      have hrid : ∀ x : Task,
          (if x.id == i then applyUpdate u t else x).id = x.id := by
        intro x
        exact replace_id_eq i (applyUpdate u t) (by rw [applyUpdate_id]; exact hti) x
      refine ⟨?_, ?_, ?_⟩
      · rw [List.pairwise_map]
        refine hpw.imp_of_mem ?_
        intro a b _ _ hab
        rw [hrid a, hrid b]
        exact hab
      · intro y hy
        rcases List.mem_map.mp hy with ⟨x, hx, hxy⟩
        by_cases hxi : x.id = i
        · have hyt : y = applyUpdate u t := by rw [← hxy]; simp [hxi]
          rw [hyt]
          exact applyUpdate_title_ne u t hv (htl t htmem)
        · have hyx : y = x := by rw [← hxy]; simp [hxi]
          rw [hyx]
          exact htl x hx
      · intro y hy
        rcases List.mem_map.mp hy with ⟨x, hx, hxy⟩
        have hyx : y.id = x.id := by rw [← hxy]; exact hrid x
        rw [hyx]
        exact hid x hx
  · simp only [update_task, if_neg hv]
    exact ⟨hpw, htl, hid⟩

theorem inv_delete (i : Nat) (db : DBState) (h : Inv db) :
    Inv (delete_task i db).2 := by
  obtain ⟨hpw, htl, hid⟩ := h
  rcases hf : db.tasks.find? (fun t => t.id == i) with _ | t
  · simp only [delete_task, hf]
    exact ⟨hpw, htl, hid⟩
  · simp only [delete_task, hf]
    refine ⟨?_, ?_, ?_⟩
    · exact hpw.sublist (List.filter_sublist _)
    · intro y hy
      exact htl y (List.mem_of_mem_filter hy)
    · intro y hy
      exact hid y (List.mem_of_mem_filter hy)

theorem inv_applyOp (db : DBState) (op : Op) (h : Inv db) : Inv (applyOp db op) := by
  cases op with
  | create r => exact inv_create r db h
  | update i u => exact inv_update i u db h
  | delete i => exact inv_delete i db h

theorem inv_applyOps (ops : List Op) (db : DBState) (h : Inv db) :
    Inv (applyOps ops db) := by
  induction ops generalizing db with
  | nil => exact h
  | cons op ops ih => exact ih (applyOp db op) (inv_applyOp db op h)

theorem inv_initDB : Inv initDB := by
  refine ⟨List.Pairwise.nil, ?_, ?_⟩ <;> intro t ht <;> cases ht

/- ## Simulation with the spec-level state -/

theorem taskOfCreate_id (tc : TaskCreate) (n : Nat) : (taskOfCreate tc n).id = n := rfl

theorem find?_eq_none_of_lt (l : List Task) (n : Nat) (h : ∀ t ∈ l, t.id < n) :
    l.find? (fun x => x.id == n) = none := by
  rw [List.find?_eq_none]
  intro x hx
  simp only [beq_iff_eq]
  exact Nat.ne_of_lt (h x hx)

theorem sim_create (r : CreateRequest) (db : DBState) (s : SpecState) (h : Sim db s) :
    Sim (create_task r db).2 (specStep s (Op.create r)) := by
  obtain ⟨hinv, hm, hn⟩ := h
  rcases hv : validateCreate r with _ | tc
  · simp only [create_task, specStep, hv]
    exact ⟨hinv, hm, hn⟩
  · refine ⟨?_, ?_, ?_⟩
    · exact inv_create r db ⟨hinv.1, hinv.2.1, hinv.2.2⟩
    · intro i
      simp only [create_task, specStep, hv]
      unfold absView
      rw [find?_append_tasks]
      by_cases hi : i = s.next
      · have hnone : db.tasks.find? (fun x => x.id == i) = none := by
          rw [hi, ← hn]
          exact find?_eq_none_of_lt db.tasks db.nextId hinv.2.2
        rw [hnone]
        simp [hi, ← hn, List.find?_cons, taskOfCreate]
      · have hone : [taskOfCreate tc db.nextId].find? (fun x => x.id == i) = none := by
          rw [List.find?_eq_none]
          intro x hx
          have hx' : x = taskOfCreate tc db.nextId := by simpa using hx
          rw [hx']
          simp only [taskOfCreate_id, beq_iff_eq]
          rw [hn]
          exact fun hh => hi hh.symm
        rw [hone]
        have := hm i
        unfold absView at this
        rw [if_neg hi]
        cases hfd : db.tasks.find? (fun x => x.id == i) with
        | none => rw [hfd] at this; simpa using this.symm.symm
        | some a => rw [hfd] at this; simpa using this
    · simp only [create_task, specStep, hv]
      rw [hn]

theorem sim_update (i : Nat) (u : TaskUpdate) (db : DBState) (s : SpecState)
    (h : Sim db s) : Sim (update_task i u db).2 (specStep s (Op.update i u)) := by
  obtain ⟨hinv, hm, hn⟩ := h
  by_cases hv : validateUpdate u = true
  · rcases hf : db.tasks.find? (fun t => t.id == i) with _ | t
    · have hsm : s.m i = none := by rw [← hm i]; unfold absView; exact hf
      simp only [update_task, specStep, hv, if_true, hf, hsm]
      exact ⟨hinv, hm, hn⟩
    · have hsm : s.m i = some t := by rw [← hm i]; unfold absView; exact hf
      have hti : t.id = i := find?_id_eq db.tasks i t hf
      simp only [update_task, specStep, hv, if_true, hf, hsm]
      refine ⟨?_, ?_, ?_⟩
      · have := inv_update i u db ⟨hinv.1, hinv.2.1, hinv.2.2⟩
        simpa only [update_task, hv, if_true, hf] using this
      · intro j
        unfold absView
        dsimp only
        by_cases hj : j = i
        · rw [hj, if_pos rfl]
          exact find?_map_replace_self db.tasks i (applyUpdate u t)
            (by rw [applyUpdate_id]; exact hti) (by rw [hf]; rfl)
        · rw [if_neg hj]
          rw [find?_map_replace db.tasks i (applyUpdate u t)
            (by rw [applyUpdate_id]; exact hti) j hj]
          have := hm j
          unfold absView at this
          exact this
      · exact hn
  · simp only [update_task, specStep, hv, if_neg]
    simp only [Bool.not_eq_true] at hv
    simp only [hv, Bool.false_eq_true, if_false]
    exact ⟨hinv, hm, hn⟩

theorem sim_delete (i : Nat) (db : DBState) (s : SpecState) (h : Sim db s) :
    Sim (delete_task i db).2 (specStep s (Op.delete i)) := by
  obtain ⟨hinv, hm, hn⟩ := h
  rcases hf : db.tasks.find? (fun t => t.id == i) with _ | t
  · have hsm : s.m i = none := by rw [← hm i]; unfold absView; exact hf
    simp only [delete_task, specStep, hf, hsm]
    exact ⟨hinv, hm, hn⟩
  · have hsm : s.m i = some t := by rw [← hm i]; unfold absView; exact hf
    simp only [delete_task, specStep, hf, hsm]
    refine ⟨?_, ?_, ?_⟩
    · have := inv_delete i db ⟨hinv.1, hinv.2.1, hinv.2.2⟩
      simpa only [delete_task, hf] using this
    · intro j
      unfold absView
      dsimp only
      by_cases hj : j = i
      · rw [hj, if_pos rfl]
        exact find?_filter_self db.tasks i
      · rw [if_neg hj, find?_filter_ne db.tasks i j hj]
        have := hm j
        unfold absView at this
        exact this
    · exact hn

theorem sim_step (db : DBState) (s : SpecState) (op : Op) (h : Sim db s) :
    Sim (applyOp db op) (specStep s op) := by
  cases op with
  | create r => exact sim_create r db s h
  | update i u => exact sim_update i u db s h
  | delete i => exact sim_delete i db s h

theorem sim_steps (ops : List Op) (db : DBState) (s : SpecState) (h : Sim db s) :
    Sim (applyOps ops db) (specSteps ops s) := by
  induction ops generalizing db s with
  | nil => exact h
  | cons op ops ih => exact ih (applyOp db op) (specStep s op) (sim_step db s op h)

theorem sim_init : Sim initDB initSpec := by
  refine ⟨inv_initDB, ?_, rfl⟩
  intro i
  rfl

theorem applyUpdate_idem (u : TaskUpdate) (t : Task) :
    applyUpdate u (applyUpdate u t) = applyUpdate u t := by
  rcases u with ⟨ut, ud, uc⟩
  cases ut <;> cases ud <;> cases uc <;> simp [applyUpdate]

/- ## Claims -/

/-- Claim C1: for every existing task with id `i` and every update request,
the update operation applies exactly the fields explicitly present in the
request body to task `i` and leaves every absent field unchanged; in
particular, a request supplying only `completed` leaves `title` and
`description` of task `i` equal to their values before the update. -/
theorem update_task_applies_only_present_fields :
    ∀ (db : DBState) (i : Nat) (u : TaskUpdate) (t : Task),
    lookupTask db i = some t →
    validateUpdate u = true →
    ∃ t', (update_task i u db).1 = Except.ok t' ∧
      t'.id = t.id ∧
      (u.title = none → t'.title = t.title) ∧
      (∀ s, u.title = some s → t'.title = s) ∧
      (u.description = none → t'.description = t.description) ∧
      (∀ d, u.description = some d → t'.description = some d) ∧
      (u.completed = none → t'.completed = t.completed) ∧
      (∀ b, u.completed = some b → t'.completed = b) ∧
      lookupTask (update_task i u db).2 i = some t' ∧
      (∀ j, j ≠ i → lookupTask (update_task i u db).2 j = lookupTask db j) := by
  intro db i u t hf hv
  rw [lookupTask] at hf
  have hti : t.id = i := find?_id_eq db.tasks i t hf
  have htid : (applyUpdate u t).id = i := by rw [applyUpdate_id]; exact hti
  refine ⟨applyUpdate u t, ?_, ?_, ?_, ?_, ?_, ?_, ?_, ?_, ?_, ?_⟩
  · simp only [update_task, hv, if_true, hf]
  · exact applyUpdate_id u t
  · intro h; simp [applyUpdate, h]
  · intro s h; simp [applyUpdate, h]
  · intro h; simp [applyUpdate, h]
  · intro d h; simp [applyUpdate, h]
  · intro h; simp [applyUpdate, h]
  · intro b h; simp [applyUpdate, h]
  · simp only [update_task, hv, if_true, hf, lookupTask]
    exact find?_map_replace_self db.tasks i (applyUpdate u t) htid (by rw [hf]; rfl)
  · intro j hj
    simp only [update_task, hv, if_true, hf, lookupTask]
    exact find?_map_replace db.tasks i (applyUpdate u t) htid j hj

theorem update_task_applies_only_present_fields_witness :
    lookupTask exampleDB 1 = some exampleTask ∧
    validateUpdate ⟨none, none, some true⟩ = true ∧
    ∃ t', (update_task 1 ⟨none, none, some true⟩ exampleDB).1 = Except.ok t' ∧
      t'.id = exampleTask.id ∧
      ((⟨none, none, some true⟩ : TaskUpdate).title = none →
        t'.title = exampleTask.title) ∧
      (∀ s, (⟨none, none, some true⟩ : TaskUpdate).title = some s → t'.title = s) ∧
      ((⟨none, none, some true⟩ : TaskUpdate).description = none →
        t'.description = exampleTask.description) ∧
      (∀ d, (⟨none, none, some true⟩ : TaskUpdate).description = some d →
        t'.description = some d) ∧
      ((⟨none, none, some true⟩ : TaskUpdate).completed = none →
        t'.completed = exampleTask.completed) ∧
      (∀ b, (⟨none, none, some true⟩ : TaskUpdate).completed = some b →
        t'.completed = b) ∧
      lookupTask (update_task 1 ⟨none, none, some true⟩ exampleDB).2 1 = some t' ∧
      (∀ j, j ≠ 1 →
        lookupTask (update_task 1 ⟨none, none, some true⟩ exampleDB).2 j =
          lookupTask exampleDB j) :=
  ⟨rfl, rfl,
    update_task_applies_only_present_fields exampleDB 1 ⟨none, none, some true⟩
      exampleTask rfl rfl⟩

/-- Claim C2: for every create request whose title is empty or missing,
the create operation rejects the request before any storage access and
the set of persisted tasks is unchanged (no row is inserted). -/
theorem create_task_rejects_empty_or_missing_title :
    ∀ (db : DBState) (r : CreateRequest),
    r.title = none ∨ r.title = some "" →
    create_task r db = (Except.error Err.validation, db) := by
  intro db r h
  rcases h with h | h <;> simp [create_task, validateCreate, h]

theorem create_task_rejects_empty_or_missing_title_witness :
    create_task ⟨none, none, none⟩ initDB = (Except.error Err.validation, initDB) ∧
      create_task ⟨some "", some "x", some true⟩ exampleDB =
        (Except.error Err.validation, exampleDB) :=
  ⟨create_task_rejects_empty_or_missing_title initDB ⟨none, none, none⟩ (Or.inl rfl),
    create_task_rejects_empty_or_missing_title exampleDB ⟨some "", some "x", some true⟩
      (Or.inr rfl)⟩

/-- Claim C3: every persisted Task, after any sequence of create, update,
and delete operations, has an id distinct from every other persisted
Task's id and a non-empty title. -/
theorem persisted_tasks_have_unique_ids_and_nonempty_titles :
    ∀ ops : List Op,
    (applyOps ops initDB).tasks.Pairwise (fun a b => a.id ≠ b.id) ∧
    ∀ t ∈ (applyOps ops initDB).tasks, t.title ≠ "" := by
  intro ops
  have h := inv_applyOps ops initDB inv_initDB
  exact ⟨h.1, h.2.1⟩

theorem persisted_tasks_have_unique_ids_and_nonempty_titles_witness :
    (applyOps [Op.create ⟨some "Buy milk", none, none⟩] initDB).tasks.Pairwise
        (fun a b => a.id ≠ b.id) ∧
      exampleTask.title ≠ "" :=
  ⟨(persisted_tasks_have_unique_ids_and_nonempty_titles
      [Op.create ⟨some "Buy milk", none, none⟩]).1,
    (persisted_tasks_have_unique_ids_and_nonempty_titles
      [Op.create ⟨some "Buy milk", none, none⟩]).2 exampleTask (by decide)⟩

/-- Claim C4: for every id `i`, the get-one operation returns the
persisted task whose id equals `i` when such a task exists, and fails
with not-found when no persisted task has id `i`. -/
theorem get_task_returns_match_or_not_found :
    ∀ (db : DBState) (i : Nat), Inv db →
    (∀ t, t ∈ db.tasks → t.id = i → (get_task i db).1 = Except.ok t) ∧
    ((∀ t ∈ db.tasks, t.id ≠ i) → (get_task i db).1 = Except.error Err.notFound) := by
  intro db i hinv
  constructor
  · intro t ht hti
    have hfind := find?_eq_some_of_mem_unique db.tasks hinv.1 t ht
    rw [hti] at hfind
    simp only [get_task, hfind]
  · intro h
    have hnone : db.tasks.find? (fun t => t.id == i) = none := by
      rw [List.find?_eq_none]
      intro x hx
      simp only [beq_iff_eq]
      exact h x hx
    simp only [get_task, hnone]

theorem get_task_returns_match_or_not_found_witness :
    Inv exampleDB ∧
      (get_task 1 exampleDB).1 = Except.ok exampleTask ∧
      (get_task 2 exampleDB).1 = Except.error Err.notFound :=
  ⟨by decide,
    (get_task_returns_match_or_not_found exampleDB 1 (by decide)).1 exampleTask
      (by decide) rfl,
    (get_task_returns_match_or_not_found exampleDB 2 (by decide)).2 (by decide)⟩

/-- Claim C5: for every id `i`, deleting task `i` when it exists removes
exactly that row (a subsequent get-one for `i` yields not-found), and
deleting when no persisted task has id `i` fails with not-found rather
than succeeding, leaving the stored set unchanged. -/
theorem delete_task_removes_exactly_row_or_not_found :
    ∀ (db : DBState) (i : Nat),
    ((∃ t, t ∈ db.tasks ∧ t.id = i) →
      (delete_task i db).1 = Except.ok () ∧
      (get_task i (delete_task i db).2).1 = Except.error Err.notFound ∧
      (∀ x, x ∈ (delete_task i db).2.tasks ↔ x ∈ db.tasks ∧ x.id ≠ i)) ∧
    ((∀ t ∈ db.tasks, t.id ≠ i) → delete_task i db = (Except.error Err.notFound, db)) := by
  intro db i
  constructor
  · rintro ⟨t, ht, hti⟩
    have hsome : (db.tasks.find? (fun x => x.id == i)).isSome := by
      rw [List.find?_isSome]
      exact ⟨t, ht, by simp [hti]⟩
    rcases hf : db.tasks.find? (fun x => x.id == i) with _ | t₀
    · rw [hf] at hsome; cases hsome
    · refine ⟨?_, ?_, ?_⟩
      · simp only [delete_task, hf]
      · simp only [delete_task, hf, get_task, find?_filter_self]
      · intro x
        simp only [delete_task, hf, List.mem_filter, bne_iff_ne]
  · intro h
    have hnone : db.tasks.find? (fun t => t.id == i) = none := by
      rw [List.find?_eq_none]
      intro x hx
      simp only [beq_iff_eq]
      exact h x hx
    simp only [delete_task, hnone]

theorem delete_task_removes_exactly_row_or_not_found_witness :
    (delete_task 1 exampleDB).1 = Except.ok () ∧
      (get_task 1 (delete_task 1 exampleDB).2).1 = Except.error Err.notFound ∧
      delete_task 2 exampleDB = (Except.error Err.notFound, exampleDB) :=
  ⟨((delete_task_removes_exactly_row_or_not_found exampleDB 1).1
      ⟨exampleTask, by decide, rfl⟩).1,
    ((delete_task_removes_exactly_row_or_not_found exampleDB 1).1
      ⟨exampleTask, by decide, rfl⟩).2.1,
    (delete_task_removes_exactly_row_or_not_found exampleDB 2).2 (by decide)⟩

/-- Claim C6: for every mutating operation (create, update, delete), if
an exception is raised during the storage unit, the unit is rolled back
before the error response is produced, so the persisted state after the
failed operation equals the persisted state before it (no partial write
is observable); when nothing is raised, the explicit commit-or-rollback
unit agrees with the plain handler. -/
theorem mutating_ops_roll_back_on_exception :
    ∀ (db : DBState) (r : CreateRequest) (i : Nat) (u : TaskUpdate),
    (create_task_tx r db true).2 = db ∧
    (update_task_tx i u db true).2 = db ∧
    (delete_task_tx i db true).2 = db ∧
    create_task_tx r db false = create_task r db ∧
    update_task_tx i u db false = update_task i u db ∧
    delete_task_tx i db false = delete_task i db := by
  intro db r i u
  refine ⟨?_, ?_, ?_, ?_, ?_, ?_⟩
  · rcases hv : validateCreate r with _ | tc <;>
      simp [create_task_tx, hv, DBSession.begin, DBSession.rollback]
  · by_cases hv : validateUpdate u = true
    · rcases hf : db.tasks.find? (fun t => t.id == i) with _ | t <;>
        simp [update_task_tx, hv, hf, DBSession.begin, DBSession.rollback]
    · simp [update_task_tx, hv]
  · rcases hf : db.tasks.find? (fun t => t.id == i) with _ | t <;>
      simp [delete_task_tx, hf, DBSession.begin, DBSession.rollback]
  · rcases hv : validateCreate r with _ | tc <;>
      simp [create_task_tx, create_task, hv, DBSession.begin, DBSession.commit]
  · by_cases hv : validateUpdate u = true
    · rcases hf : db.tasks.find? (fun t => t.id == i) with _ | t <;>
        simp [update_task_tx, update_task, hv, hf, DBSession.begin, DBSession.commit]
    · simp [update_task_tx, update_task, hv]
  · rcases hf : db.tasks.find? (fun t => t.id == i) with _ | t <;>
      simp [delete_task_tx, delete_task, hf, DBSession.begin, DBSession.commit]

/-- Claim C7: for every valid create request, the create operation
inserts exactly one row, the id of that row is assigned by storage, the
returned record contains the assigned id together with the submitted
title and description, and when `completed` is absent from the request
the stored and returned `completed` flag is false. -/
theorem create_task_inserts_exactly_one_row :
    ∀ (db : DBState) (r : CreateRequest) (s : String),
    r.title = some s → s ≠ "" →
    ∃ nt, create_task r db =
        (Except.ok nt, { tasks := db.tasks ++ [nt], nextId := db.nextId + 1 }) ∧
      nt.id = db.nextId ∧ nt.title = s ∧ nt.description = r.description ∧
      (r.completed = none → nt.completed = false) ∧
      (∀ b, r.completed = some b → nt.completed = b) := by
  intro db r s hs hne
  have hv : validateCreate r = some ⟨s, r.description, r.completed.getD false⟩ := by
    simp [validateCreate, hs, hne]
  refine ⟨taskOfCreate ⟨s, r.description, r.completed.getD false⟩ db.nextId,
    ?_, rfl, rfl, rfl, ?_, ?_⟩
  · simp only [create_task, hv]
  · intro h; simp [taskOfCreate, h]
  · intro b h; simp [taskOfCreate, h]

theorem create_task_inserts_exactly_one_row_witness :
    ("Buy milk" : String) ≠ "" ∧
    ∃ nt, create_task ⟨some "Buy milk", none, none⟩ initDB =
        (Except.ok nt, { tasks := initDB.tasks ++ [nt], nextId := initDB.nextId + 1 }) ∧
      nt.id = initDB.nextId ∧ nt.title = "Buy milk" ∧
      nt.description = (⟨some "Buy milk", none, none⟩ : CreateRequest).description ∧
      ((⟨some "Buy milk", none, none⟩ : CreateRequest).completed = none →
        nt.completed = false) ∧
      (∀ b, (⟨some "Buy milk", none, none⟩ : CreateRequest).completed = some b →
        nt.completed = b) :=
  ⟨by decide,
    create_task_inserts_exactly_one_row initDB ⟨some "Buy milk", none, none⟩
      "Buy milk" rfl (by decide)⟩

/-- Claim C8: after any sequence of create, update, and delete
operations, the list operation returns exactly the set of created tasks
that have not been deleted, and each returned task's fields equal the
values last written to it (expressed against the spec-level replay
`specSteps`, which records for each live id the record last written). -/
theorem get_tasks_returns_exactly_live_tasks :
    ∀ ops : List Op,
    ∃ l, (get_tasks (applyOps ops initDB)).1 = Except.ok l ∧
      ∀ t : Task, t ∈ l ↔ (specSteps ops initSpec).m t.id = some t := by
  intro ops
  have hsim := sim_steps ops initDB initSpec sim_init
  refine ⟨(applyOps ops initDB).tasks, rfl, ?_⟩
  intro t
  constructor
  · intro ht
    rw [← hsim.2.1 t.id]
    exact find?_eq_some_of_mem_unique _ hsim.1.1 t ht
  · intro h
    have habs : absView (applyOps ops initDB) t.id = some t := by
      rw [hsim.2.1 t.id]; exact h
    exact List.mem_of_find?_eq_some habs

/-- Claim C9: for every existing task id `i` and every update request
body `u`, applying the update `(i, u)` twice in succession yields the
same persisted state and the same returned record as applying it once
(partial update is idempotent for a fixed value); the error cases are
idempotent as well. -/
theorem update_task_idempotent :
    ∀ (db : DBState) (i : Nat) (u : TaskUpdate),
    update_task i u (update_task i u db).2 = update_task i u db := by
  intro db i u
  by_cases hv : validateUpdate u = true
  · rcases hf : db.tasks.find? (fun t => t.id == i) with _ | t
    · have h2 : (update_task i u db).2 = db := by simp [update_task, hv, hf]
      rw [h2]
    · have hti : t.id = i := find?_id_eq db.tasks i t hf
      have htid : (applyUpdate u t).id = i := by rw [applyUpdate_id]; exact hti
      have hres : update_task i u db =
          (Except.ok (applyUpdate u t),
            ⟨db.tasks.map (fun x => if x.id == i then applyUpdate u t else x),
              db.nextId⟩) := by
        simp [update_task, hv, hf]
      have hf2 : (db.tasks.map
            (fun x => if x.id == i then applyUpdate u t else x)).find?
            (fun x => x.id == i) = some (applyUpdate u t) :=
        find?_map_replace_self db.tasks i (applyUpdate u t) htid (by rw [hf]; rfl)
      have hmap : (db.tasks.map
            (fun x => if x.id == i then applyUpdate u t else x)).map
            (fun x => if x.id == i then applyUpdate u t else x) =
          db.tasks.map (fun x => if x.id == i then applyUpdate u t else x) := by
        rw [List.map_map]
        refine List.map_congr_left ?_
        intro a _
        by_cases ha : a.id = i
        · simp [Function.comp, ha, htid]
        · simp [Function.comp, ha]
      rw [hres]
      simp only [update_task, hv, if_true, hf2, applyUpdate_idem, hmap]
  · have h2 : (update_task i u db).2 = db := by simp [update_task, hv]
    rw [h2]

/-- Claim C10: the read operations (list and get-one) never modify the
persisted state: for every storage state and every id, the persisted
store is identical before and after a list or get-one call, whether the
call succeeds or fails with not-found. -/
theorem read_ops_do_not_modify_state :
    ∀ (db : DBState) (i : Nat),
    (get_tasks db).2 = db ∧ (get_task i db).2 = db := by
  intro db i
  constructor
  · rfl
  · rcases hf : db.tasks.find? (fun t => t.id == i) with _ | t <;>
      simp [get_task, hf]

end TaskApp
